import Mathlib

/-!
Verification of the QA core of the telegramBotEmbed repository.

Shallow embedding conventions:
* Rust `f64` scalars are modelled as `ℚ`; `sqrt` (the only transcendental
  operation used, inside cosine similarity) is passed as an explicit function
  parameter so all definitions stay computable.
* Rust strings are Lean `String`; `str::to_lowercase` is modelled by mapping
  `Char.toLower` over the character data, `str::contains` by `containsSub`.
* File-system and network effects are modelled by explicit oracle values:
  the content of a file is an `Option String` (absent / present), a JSON
  parse is a function `String → Option α`, a write either succeeds or fails
  (`Bool`), and the embedding provider's per-iteration behaviour is an
  explicit environment `ℕ → IterEnv`.
* Timestamps (`chrono::DateTime<Utc>`) are integers counting seconds.
-/

/-- Model of Rust `str::contains` on character lists: `containsSub hay needle`
is true iff `needle` occurs contiguously inside `hay`. -/
def containsSub (hay needle : List Char) : Bool :=
  match hay with
  | [] => needle.isEmpty
  | _ :: t => if needle.isPrefixOf hay then true else containsSub t needle

/-- Model of Rust `str::trim` on character lists: drop whitespace from both
ends. -/
def trimChars (l : List Char) : List Char :=
  ((l.dropWhile Char.isWhitespace).reverse.dropWhile Char.isWhitespace).reverse

/-- Model of Rust `Iterator::position`: index of the first element satisfying
the predicate. -/
def position (p : α → Bool) : List α → Option ℕ
  | [] => none
  | x :: xs => if p x then some 0 else (position p xs).map (· + 1)

/-- Lowercased character data of a string (model of `str::to_lowercase`). -/
def lowerData (s : String) : List Char :=
  s.data.map Char.toLower

/-- Mirror of `FormattedText` (src/qa/types.rs): text plus rich-text
entities.  The entities are opaque to all QA logic (only serialized), so they
are modelled as plain strings. -/
structure FormattedText where
  text : String
  entities : List String
deriving DecidableEq, Repr

instance : Inhabited FormattedText := ⟨⟨"", []⟩⟩

/-- Mirror of `QAItem` (src/qa/types.rs). -/
structure QAItem where
  question : FormattedText
  answer : FormattedText
deriving DecidableEq, Repr

instance : Inhabited QAItem := ⟨⟨default, default⟩⟩

/-- Mirror of `QASystem` (src/qa/types.rs): parallel lists of QA items and
question embeddings. -/
structure QASystem where
  qa_data : List QAItem
  question_embeddings : List (List ℚ)

namespace Search

/-- Mirror of `cosine_similarity` (src/qa/search.rs): dot product over the
zipped inputs, norms via `sqrt` of the sums of squares, with an explicit
guard returning `0.0` when either norm is zero.  `sqrt` is abstract. -/
def cosine_similarity (sqrt : ℚ → ℚ) (a b : List ℚ) : ℚ :=
  let dot_product : ℚ := ((a.zip b).map (fun p => p.1 * p.2)).sum
  let norm_a : ℚ := sqrt ((a.map (fun x => x * x)).sum)
  let norm_b : ℚ := sqrt ((b.map (fun x => x * x)).sum)
  if norm_a = 0 ∨ norm_b = 0 then 0
  else dot_product / (norm_a * norm_b)

/-- Instrumentation for src/qa/search.rs `cosine_similarity`: true iff the
division in the final line is evaluated with a zero divisor. -/
def cosine_similarity_divides_by_zero (sqrt : ℚ → ℚ) (a b : List ℚ) : Bool :=
  let norm_a : ℚ := sqrt ((a.map (fun x => x * x)).sum)
  let norm_b : ℚ := sqrt ((b.map (fun x => x * x)).sum)
  if norm_a = 0 ∨ norm_b = 0 then false
  else decide (norm_a * norm_b = 0)

/-- One step of Rust `Iterator::max_by` with comparison
`sim_a.partial_cmp(sim_b).unwrap_or(Equal)`: keep the accumulator only when
it is strictly greater, so equal maxima resolve to the later element. -/
def maxStep (acc : Option (ℕ × ℚ)) (x : ℕ × ℚ) : Option (ℕ × ℚ) :=
  match acc with
  | none => some x
  | some a => if a.2 > x.2 then some a else some x

/-- Mirror of `find_best_match` (src/qa/search.rs): enumerate the stored
embeddings, map each to its cosine similarity with the query, and take the
`max_by` of the similarity, returning index and score. -/
def find_best_match (sqrt : ℚ → ℚ) (query_embedding : List ℚ)
    (question_embeddings : List (List ℚ)) : Option (ℕ × ℚ) :=
  ((question_embeddings.enum).map
    (fun p => (p.1, cosine_similarity sqrt query_embedding p.2))).foldl maxStep none

/-- Mirror of `search_by_keyword` (src/qa/search.rs): empty keyword gives no
results; otherwise case-insensitive substring filter, capped at 10 items. -/
def search_by_keyword (qa_data : List QAItem) (keywords : String) : List QAItem :=
  if keywords = "" then []
  else
    let lower_keywords := lowerData keywords
    (qa_data.filter
      (fun item => containsSub (lowerData item.question.text) lower_keywords)).take 10

end Search

namespace QaMod

/-- Mirror of the legacy `cosine_similarity` (src/qa/mod.rs:390-395): the same
dot-product / product-of-norms formula but with NO zero-norm guard — the
division is evaluated unconditionally. -/
def cosine_similarity (sqrt : ℚ → ℚ) (a b : List ℚ) : ℚ :=
  let dot_product : ℚ := ((a.zip b).map (fun p => p.1 * p.2)).sum
  let norm_a : ℚ := sqrt ((a.map (fun x => x * x)).sum)
  let norm_b : ℚ := sqrt ((b.map (fun x => x * x)).sum)
  dot_product / (norm_a * norm_b)

/-- The divisor that legacy `cosine_similarity` (src/qa/mod.rs) feeds to its
division, always evaluated (there is no guard in the source). -/
def cosine_similarity_divisor (sqrt : ℚ → ℚ) (a b : List ℚ) : ℚ :=
  sqrt ((a.map (fun x => x * x)).sum) * sqrt ((b.map (fun x => x * x)).sum)

/-- File-system view seen by legacy `load_cached_embeddings` (src/qa/mod.rs):
content of the cache file and of the companion `.hash` file (`none` when the
file does not exist), plus success flags for the read/open system calls on
files that do exist. -/
structure LegacyCacheFs where
  cacheContent : Option String
  hashContent : Option String
  readHashOk : Bool
  openOk : Bool

/-- Mirror of legacy `load_cached_embeddings` (src/qa/mod.rs:315-348): returns
`ok none` when cache or hash file is missing or the stored hash is stale,
propagates read/open failures, and — via the `?` on `serde_json::from_reader`
— returns an ERROR when the cache file fails to parse.  `parse` is the oracle
for `serde_json::from_reader`. -/
def load_cached_embeddings (fs : LegacyCacheFs)
    (parse : String → Option (List (List ℚ))) (expected_qa_hash : String) :
    Except Unit (Option (List (List ℚ))) :=
  match fs.cacheContent, fs.hashContent with
  | none, _ => .ok none
  | some _, none => .ok none
  | some c, some h =>
    if fs.readHashOk = false then .error ()
    else if trimChars h.data ≠ expected_qa_hash.data then .ok none
    else if fs.openOk = false then .error ()
    else
      match parse c with
      | none => .error ()
      | some e => .ok (some e)

end QaMod

namespace Persistence

/-- File-system view seen by `load_embeddings_cache` (src/qa/persistence.rs):
whether `create_dir_all` succeeds, the cache file content (`none` when the
file does not exist), and whether `File::open` succeeds on an existing file. -/
structure CacheFs where
  mkdirOk : Bool
  cacheContent : Option String
  openOk : Bool

/-- Mirror of `load_embeddings_cache` (src/qa/persistence.rs:56-86): a missing
cache file yields an empty map, a parse failure is swallowed by
`unwrap_or_else` and also yields an empty map; only directory-creation and
file-open failures propagate as errors.  `parse` is the oracle for
`serde_json::from_reader`. -/
def load_embeddings_cache (fs : CacheFs)
    (parse : String → Option (List (String × List ℚ))) :
    Except Unit (List (String × List ℚ)) :=
  if fs.mkdirOk = false then .error ()
  else
    match fs.cacheContent with
    | none => .ok []
    | some c =>
      if fs.openOk = false then .error ()
      else
        match parse c with
        | none => .ok []
        | some m => .ok m

end Persistence

namespace Embedding

/-- Mirror of the rate-limit classification inside
`generate_embedding_with_retry` (src/qa/embedding.rs:58-61): the lowercased
error text must contain the substring 429 or the substring
"resource has been exhausted". -/
def is_rate_limit_error (msg : String) : Bool :=
  let error_string := lowerData msg
  containsSub error_string "429".data ||
    containsSub error_string "resource has been exhausted".data

/-- Modelled from the spec: the classification used by claim C3's wording,
an error text containing "429" or "resource exhausted". -/
def claimed_rate_limit_class (msg : String) : Bool :=
  containsSub msg.data "429".data || containsSub msg.data "resource exhausted".data

/-- Outcome of one provider call (`generate_single_embedding`). -/
inductive ProviderOutcome where
  | ok (v : List ℚ)
  | fail (msg : String)
deriving DecidableEq

/-- Environment seen by one iteration of the retry loop: either
`key_manager.get_key()` failed, or it returned a key and the provider call
with that key had the given outcome. -/
inductive IterEnv where
  | noKey
  | key (k : String) (r : ProviderOutcome)
deriving DecidableEq

/-- Observable side effect of one retry-loop iteration. -/
inductive RetryAction where
  | sleepSecs (n : ℕ)
  | disableKey (k : String)
deriving DecidableEq

/-- Result of `generate_embedding_with_retry`. -/
inductive RetryResult where
  | success (v : List ℚ)
  | exhausted
deriving DecidableEq

/-- Attempt ceiling `MAX_ATTEMPTS` of src/qa/embedding.rs. -/
def MAX_ATTEMPTS : ℕ := 10

/-- Loop body of `generate_embedding_with_retry` (src/qa/embedding.rs:37-72).
`fuel` is the number of iterations the `attempts >= MAX_ATTEMPTS` guard still
permits (`MAX_ATTEMPTS - attempts`); `attempts` indexes the environment.
Returns the emitted actions and the final result:
no key → sleep 60s and retry; provider success → return it; rate-limited
failure → disable the key and retry immediately; other failure → sleep 5s
and retry; guard reached → terminal error. -/
def retryGo (env : ℕ → IterEnv) : ℕ → ℕ → List RetryAction × RetryResult
  | 0, _ => ([], .exhausted)
  | fuel + 1, attempts =>
    match env attempts with
    | .noKey =>
      let r := retryGo env fuel (attempts + 1)
      (.sleepSecs 60 :: r.1, r.2)
    | .key _ (.ok v) => ([], .success v)
    | .key k (.fail msg) =>
      if is_rate_limit_error msg then
        let r := retryGo env fuel (attempts + 1)
        (.disableKey k :: r.1, r.2)
      else
        let r := retryGo env fuel (attempts + 1)
        (.sleepSecs 5 :: r.1, r.2)

/-- Mirror of `generate_embedding_with_retry` (src/qa/embedding.rs:29-73):
the retry loop started with `attempts = 0`. -/
def generate_embedding_with_retry (env : ℕ → IterEnv) :
    List RetryAction × RetryResult :=
  retryGo env MAX_ATTEMPTS 0

end Embedding

namespace KeyManager

/-- Mirror of `ApiKey` (src/gemini/key_manager.rs): the secret, the optional
disabled-until timestamp, and the recorded request timestamps. -/
structure ApiKey where
  key : String
  disabled_until : Option ℤ
  requests : List ℤ
deriving DecidableEq, Repr

instance : Inhabited ApiKey := ⟨⟨"", none, []⟩⟩

/-- Mirror of the mutable state of `GeminiKeyManager`
(src/gemini/key_manager.rs): the key list and the round-robin cursor. -/
structure ManagerState where
  keys : List ApiKey
  last_used_key_index : ℕ
deriving DecidableEq, Repr

/-- Seconds in `chrono::Duration::days(1)`. -/
def secondsPerDay : ℤ := 86400

/-- Seconds in `chrono::Duration::minutes(1)`. -/
def secondsPerMinute : ℤ := 60

/-- The per-key maintenance pass at the start of `get_key`
(src/gemini/key_manager.rs:44-57): clear `disabled_until` once `now` has
reached it, and prune request timestamps older than 24 hours. -/
def refreshKey (now : ℤ) (k : ApiKey) : ApiKey :=
  { key := k.key
    disabled_until :=
      match k.disabled_until with
      | some d => if d ≤ now then none else some d
      | none => none
    requests := k.requests.filter (fun t => decide (now - secondsPerDay < t)) }

/-- The `is_usable` test of `get_key` (src/gemini/key_manager.rs:71-85):
not disabled, daily request count below `rpd`, and requests within the last
minute below `rpm`. -/
def isUsable (rpm rpd : ℕ) (now : ℤ) (k : ApiKey) : Bool :=
  if k.disabled_until.isSome then false
  else if rpd ≤ k.requests.length then false
  else (k.requests.filter (fun t => decide (now - secondsPerMinute < t))).length < rpm

/-- The `for i in 0..n` scan of `get_key` (src/gemini/key_manager.rs:68-94):
return the first loop counter in `[i, i + fuel)` whose candidate is usable. -/
def rrFind (p : ℕ → Bool) : ℕ → ℕ → Option ℕ
  | 0, _ => none
  | fuel + 1, i => if p i then some i else rrFind p fuel (i + 1)

/-- Mirror of `GeminiKeyManager::get_key` (src/gemini/key_manager.rs:38-99):
refresh every key, fail if the pool is empty, then scan round-robin starting
just after the cursor; on success record `now` against the chosen key,
advance the cursor to its index and return its secret. -/
def get_key (rpm rpd : ℕ) (st : ManagerState) (now : ℤ) :
    ManagerState × Option String :=
  let keys := st.keys.map (refreshKey now)
  if keys.length = 0 then
    ({ keys := keys, last_used_key_index := st.last_used_key_index }, none)
  else
    let n := keys.length
    let start_idx := (st.last_used_key_index + 1) % n
    match rrFind (fun i => isUsable rpm rpd now (keys.getD ((start_idx + i) % n) default)) n 0 with
    | some i =>
      let idx := (start_idx + i) % n
      let chosen := keys.getD idx default
      ({ keys := keys.set idx { chosen with requests := chosen.requests ++ [now] },
         last_used_key_index := idx }, some chosen.key)
    | none =>
      ({ keys := keys, last_used_key_index := st.last_used_key_index }, none)

/-- Midnight UTC of the day after `now`
(src/gemini/key_manager.rs:105-109). -/
def nextUtcMidnight (now : ℤ) : ℤ :=
  (Int.fdiv now secondsPerDay + 1) * secondsPerDay

/-- The `iter_mut().find(...)` of `disable_key`: set `disabled_until` on the
first key whose secret matches. -/
def disableFirst (target : String) (until_t : ℤ) : List ApiKey → List ApiKey
  | [] => []
  | k :: ks =>
    if k.key = target then { k with disabled_until := some until_t } :: ks
    else k :: disableFirst target until_t ks

/-- Mirror of `GeminiKeyManager::disable_key` (src/gemini/key_manager.rs:
101-117): disable the first matching key until the next UTC midnight;
unknown keys are a no-op. -/
def disable_key (st : ManagerState) (target : String) (now : ℤ) : ManagerState :=
  { st with keys := disableFirst target (nextUtcMidnight now) st.keys }

/-- `count` consecutive `get_key` calls at the same instant, collecting the
returned secrets. -/
def acquireSeq (rpm rpd : ℕ) (now : ℤ) : ℕ → ManagerState → ManagerState × List (Option String)
  | 0, st => (st, [])
  | count + 1, st =>
    let r := get_key rpm rpd st now
    let rest := acquireSeq rpm rpd now count r.1
    (rest.1, r.2 :: rest.2)

/-- Proof-state description for the round-robin run: the pool after `j`
acquisitions that started with cursor `last`, where the keys chosen so far
(offsets `1..j` after `last`, modulo `n`) carry the single request stamp
`now` and all other keys are untouched. -/
def markedKeys (keys : List ApiKey) (now : ℤ) (last n : ℕ) : ℕ → List ApiKey
  | 0 => keys
  | j + 1 =>
    (markedKeys keys now last n j).set ((last + 1 + j) % n)
      { keys.getD ((last + 1 + j) % n) default with requests := [now] }

end KeyManager

namespace QaService

/-- Mirror of `QAService::add_qa` (src/qa/service.rs:127-150), with the
embedding call and the two persistence writes replaced by oracles.  The
embedding is generated first (failure leaves the state untouched); then BOTH
in-memory lists are appended; only then are the JSON store and the cache
written, so a persistence failure surfaces as an error AFTER the in-memory
mutation. -/
def add_qa (sys : QASystem) (question answer : FormattedText)
    (embed : Option (List ℚ)) (saveQaOk saveCacheOk : Bool) :
    QASystem × Except Unit Unit :=
  match embed with
  | none => (sys, .error ())
  | some new_embedding =>
    let new_item : QAItem := { question := question, answer := answer }
    let sys' : QASystem :=
      { qa_data := sys.qa_data ++ [new_item]
        question_embeddings := sys.question_embeddings ++ [new_embedding] }
    if saveQaOk = false then (sys', .error ())
    else if saveCacheOk = false then (sys', .error ())
    else (sys', .ok ())

/-- Mirror of `QAService::delete_qa` (src/qa/service.rs:153-169): locate the
entry whose question hash matches (`Iterator::position`), remove entry and
embedding at that index, then persist; a missing hash is a silent no-op and
the function returns unit either way.  `hash` is the oracle for
`utils::get_question_hash` (SHA-256 hex). -/
def delete_qa (hash : String → String) (sys : QASystem) (question_hash : String)
    (saveQaOk : Bool) : QASystem × Except Unit Unit :=
  match position (fun item => hash item.question.text == question_hash) sys.qa_data with
  | none => (sys, .ok ())
  | some index =>
    let sys' : QASystem :=
      { qa_data := sys.qa_data.eraseIdx index
        question_embeddings := sys.question_embeddings.eraseIdx index }
    if saveQaOk = false then (sys', .error ()) else (sys', .ok ())

/-- Mirror of `QAService::update_qa` (src/qa/service.rs:172-210): locate by
old hash (missing hash → silent no-op returning unit), generate the new
embedding (failure before any mutation), replace entry and embedding in
place at the found index, then persist store and cache. -/
def update_qa (hash : String → String) (sys : QASystem) (old_question_hash : String)
    (new_question new_answer : FormattedText) (embed : Option (List ℚ))
    (saveQaOk saveCacheOk : Bool) : QASystem × Except Unit Unit :=
  match position (fun item => hash item.question.text == old_question_hash) sys.qa_data with
  | none => (sys, .ok ())
  | some index =>
    match embed with
    | none => (sys, .error ())
    | some new_embedding =>
      let new_item : QAItem := { question := new_question, answer := new_answer }
      let sys' : QASystem :=
        { qa_data := sys.qa_data.set index new_item
          question_embeddings := sys.question_embeddings.set index new_embedding }
      if saveQaOk = false then (sys', .error ())
      else if saveCacheOk = false then (sys', .error ())
      else (sys', .ok ())

/-- Mirror of the pure part of `QAService::find_matching_qa`
(src/qa/service.rs:88-124), given the already-generated query embedding:
empty index → `None`; otherwise take `find_best_match` and compare the best
similarity against the threshold. -/
def find_matching_qa (sqrt : ℚ → ℚ) (threshold : ℚ) (sys : QASystem)
    (query_embedding : List ℚ) : Option QAItem :=
  if sys.question_embeddings.isEmpty then none
  else
    match Search.find_best_match sqrt query_embedding sys.question_embeddings with
    | some (index, similarity) =>
      if threshold ≤ similarity then some (sys.qa_data.getD index default) else none
    | none => none

/-- One mutation of the similarity index, with its oracle outcomes: the
embedding result and the success flags of the persistence writes. -/
inductive QAOp where
  | add (question answer : FormattedText) (embed : Option (List ℚ)) (saveQa saveCache : Bool)
  | del (question_hash : String) (saveQa : Bool)
  | upd (old_question_hash : String) (question answer : FormattedText)
        (embed : Option (List ℚ)) (saveQa saveCache : Bool)

/-- State reached after one mutation (the state component of the
corresponding service call). -/
def applyOp (hash : String → String) (sys : QASystem) : QAOp → QASystem
  | .add q a e sq sc => (add_qa sys q a e sq sc).1
  | .del qh sq => (delete_qa hash sys qh sq).1
  | .upd oh q a e sq sc => (update_qa hash sys oh q a e sq sc).1

/-- State reached after a sequence of mutations. -/
def applyOps (hash : String → String) (ops : List QAOp) (sys : QASystem) : QASystem :=
  ops.foldl (applyOp hash) sys

end QaService

/-- Concrete QA item used by witnesses. -/
def exItem : QAItem := ⟨⟨"Hello world", []⟩, ⟨"an answer", []⟩⟩

/-- Concrete one-entry system used by witnesses. -/
def exSys1 : QASystem := ⟨[exItem], [[1]]⟩

/-- Concrete empty system used by witnesses. -/
def exSys0 : QASystem := ⟨[], []⟩

/-- Concrete square-root function valid at the inputs the witnesses use
(0, 1), standing in for `f64::sqrt`. -/
def exSqrt (q : ℚ) : ℚ := if q = 1 then 1 else 0

/-- Retry-loop environment in which every iteration obtains a key and the
provider fails with the error text "resource exhausted". -/
def exEnvC3 : ℕ → Embedding.IterEnv :=
  fun _ => .key "k1" (.fail "resource exhausted")

/-- Retry-loop environment in which every iteration obtains a key and the
provider fails with a transient error. -/
def exEnvFail : ℕ → Embedding.IterEnv :=
  fun _ => .key "k1" (.fail "timeout")

/-- Concrete credential used by witnesses. -/
def exKey : KeyManager.ApiKey := ⟨"alpha", none, []⟩

/-- Second concrete credential used by witnesses. -/
def exKeyB : KeyManager.ApiKey := ⟨"beta", none, []⟩

lemma position_some_lt {α : Type _} {p : α → Bool} :
    ∀ {l : List α} {i : ℕ}, position p l = some i → i < l.length := by
  intro l
  induction l with
  | nil => intro i h; simp [position] at h
  | cons x xs ih =>
    intro i h
    by_cases hp : p x = true
    · simp [position, hp] at h
      simp [← h]
    · simp [position, hp] at h
      obtain ⟨j, hj, hji⟩ := h
      have := ih hj
      simp
      omega

lemma applyOp_preserves_len (hash : String → String) (sys : QASystem)
    (op : QaService.QAOp) (h : sys.qa_data.length = sys.question_embeddings.length) :
    (QaService.applyOp hash sys op).qa_data.length =
      (QaService.applyOp hash sys op).question_embeddings.length := by
  cases op with
  | add q a e sq sc =>
    cases e with
    | none => simpa [QaService.applyOp, QaService.add_qa] using h
    | some v =>
      cases sq <;> cases sc <;>
        simp [QaService.applyOp, QaService.add_qa, h]
  | del qh sq =>
    rcases hpos : position (fun item => hash item.question.text == qh) sys.qa_data with _ | i
    · simpa [QaService.applyOp, QaService.delete_qa, hpos] using h
    · have hi : i < sys.qa_data.length := position_some_lt hpos
      have hi' : i < sys.question_embeddings.length := h ▸ hi
      cases sq <;>
        simp [QaService.applyOp, QaService.delete_qa, hpos,
          List.length_eraseIdx_of_lt hi, List.length_eraseIdx_of_lt hi', h]
  | upd oh q a e sq sc =>
    rcases hpos : position (fun item => hash item.question.text == oh) sys.qa_data with _ | i
    · simpa [QaService.applyOp, QaService.update_qa, hpos] using h
    · cases e with
      | none => simpa [QaService.applyOp, QaService.update_qa, hpos] using h
      | some v =>
        cases sq <;> cases sc <;>
          simp [QaService.applyOp, QaService.update_qa, hpos, h]

/-- C1: for every sequence of add/delete/update operations — including ones
whose persistence step fails after the in-memory mutation, and ones whose
embedding generation fails — the parallel-list invariant
`qa_data.len() == question_embeddings.len()` is preserved. -/
theorem C1_parallel_invariant (hash : String → String) (ops : List QaService.QAOp)
    (sys : QASystem) (h : sys.qa_data.length = sys.question_embeddings.length) :
    (QaService.applyOps hash ops sys).qa_data.length =
      (QaService.applyOps hash ops sys).question_embeddings.length := by
  induction ops generalizing sys with
  | nil => simpa [QaService.applyOps] using h
  | cons op ops ih =>
    have h1 := applyOp_preserves_len hash sys op h
    simpa [QaService.applyOps, List.foldl_cons] using
      ih (QaService.applyOp hash sys op) h1

/-- Witness for C1: a concrete run — an add whose store write fails, then a
delete — keeps the two lists at equal length. -/
theorem C1_parallel_invariant_witness :
    exSys1.qa_data.length = exSys1.question_embeddings.length
    ∧ (QaService.applyOps (fun s => s)
        [.add ⟨"new q", []⟩ ⟨"new a", []⟩ (some [2]) false true,
         .del "Hello world" true] exSys1).qa_data.length =
      (QaService.applyOps (fun s => s)
        [.add ⟨"new q", []⟩ ⟨"new a", []⟩ (some [2]) false true,
         .del "Hello world" true] exSys1).question_embeddings.length :=
  ⟨rfl, C1_parallel_invariant (fun s => s)
    [.add ⟨"new q", []⟩ ⟨"new a", []⟩ (some [2]) false true,
     .del "Hello world" true] exSys1 rfl⟩

/-- C5 counterexample: `delete_qa` does NOT report whether a match was found.
On a system that contains the hash the call returns plain unit success, and
on a system with no matching entry it returns the very same unit success —
the result carries no found-flag, contrary to the claim. -/
theorem C5_counterexample :
    position (fun item => (fun s => s) item.question.text == "Hello world")
      exSys1.qa_data = some 0
    ∧ position (fun item => (fun s => s) item.question.text == "Hello world")
      exSys0.qa_data = none
    ∧ (QaService.delete_qa (fun s => s) exSys1 "Hello world" true).2 = Except.ok ()
    ∧ (QaService.delete_qa (fun s => s) exSys0 "Hello world" true).2 = Except.ok () :=
  ⟨rfl, rfl, rfl, rfl⟩

/-- C5 amended: `delete_qa` and `update_qa` return `Result<()>`, not a
found-flag.  An unknown hash is a silent no-op that still returns unit
success; when a match exists the result reflects only the success of the
embedding call and the persistence writes. -/
theorem C5_amended (hash : String → String) (sys : QASystem) (qh : String)
    (nq na : FormattedText) (embed : Option (List ℚ)) (saveQa saveCache : Bool) :
    (position (fun item => hash item.question.text == qh) sys.qa_data = none →
      QaService.delete_qa hash sys qh saveQa = (sys, .ok ())
      ∧ QaService.update_qa hash sys qh nq na embed saveQa saveCache = (sys, .ok ()))
    ∧ (∀ i, position (fun item => hash item.question.text == qh) sys.qa_data = some i →
      ((QaService.delete_qa hash sys qh saveQa).2 = .ok () ↔ saveQa = true))
    ∧ (∀ i v, position (fun item => hash item.question.text == qh) sys.qa_data = some i →
      embed = some v →
      ((QaService.update_qa hash sys qh nq na embed saveQa saveCache).2 = .ok ()
        ↔ (saveQa = true ∧ saveCache = true)))
    ∧ (∀ i, position (fun item => hash item.question.text == qh) sys.qa_data = some i →
      embed = none →
      QaService.update_qa hash sys qh nq na embed saveQa saveCache = (sys, .error ())) := by
  refine ⟨?_, ?_, ?_, ?_⟩
  · intro hpos
    exact ⟨by simp [QaService.delete_qa, hpos], by simp [QaService.update_qa, hpos]⟩
  · intro i hpos
    cases saveQa <;> simp [QaService.delete_qa, hpos]
  · intro i v hpos hemb
    subst hemb
    cases saveQa <;> cases saveCache <;> simp [QaService.update_qa, hpos]
  · intro i hpos hemb
    subst hemb
    simp [QaService.update_qa, hpos]

/-- Witness for C5 amended: the not-found no-op on the empty system and the
found case on the one-entry system, at concrete inputs. -/
theorem C5_amended_witness :
    (position (fun item => (fun s => s) item.question.text == "Hello world")
      exSys0.qa_data = none
      ∧ QaService.delete_qa (fun s => s) exSys0 "Hello world" true = (exSys0, .ok ()))
    ∧ (position (fun item => (fun s => s) item.question.text == "Hello world")
      exSys1.qa_data = some 0
      ∧ ((QaService.delete_qa (fun s => s) exSys1 "Hello world" false).2 = .ok ()
          ↔ false = true)) := by
  refine ⟨⟨rfl, ?_⟩, ⟨rfl, ?_⟩⟩
  · exact ((C5_amended (fun s => s) exSys0 "Hello world" exItem.question exItem.answer
      none true true).1 rfl).1
  · exact (C5_amended (fun s => s) exSys1 "Hello world" exItem.question exItem.answer
      none false true).2.1 0 rfl

/-- C10: `search_by_keyword` returns at most 10 items, each of whose question
text contains the keyword case-insensitively, taken in index order (the
result is a sublist of the input), and the empty keyword returns the empty
list. -/
theorem C10_search_by_keyword (qa_data : List QAItem) (keywords : String) :
    (keywords = "" → Search.search_by_keyword qa_data keywords = [])
    ∧ (Search.search_by_keyword qa_data keywords).length ≤ 10
    ∧ (Search.search_by_keyword qa_data keywords).Sublist qa_data
    ∧ ∀ item ∈ Search.search_by_keyword qa_data keywords,
        containsSub (lowerData item.question.text) (lowerData keywords) = true := by
  by_cases hk : keywords = ""
  · simp [Search.search_by_keyword, hk]
  · refine ⟨fun h => absurd h hk, ?_, ?_, ?_⟩
    · simp only [Search.search_by_keyword, if_neg hk]
      rw [List.length_take]
      exact min_le_left _ _
    · simp only [Search.search_by_keyword, if_neg hk]
      exact (List.take_sublist _ _).trans (List.filter_sublist _)
    · intro item hmem
      simp only [Search.search_by_keyword, if_neg hk] at hmem
      have hfil : item ∈ qa_data.filter
          (fun it => containsSub (lowerData it.question.text) (lowerData keywords)) :=
        (List.take_sublist _ _).mem hmem
      exact (List.mem_filter.mp hfil).2

/-- Witness for C10: concrete evaluations on a one-item list with keyword
"hello" (matching case-insensitively) and with the empty keyword. -/
theorem C10_search_by_keyword_witness :
    ("" = "" ∧ Search.search_by_keyword [exItem] "" = [])
    ∧ (Search.search_by_keyword [exItem] "hello").length ≤ 10
    ∧ (Search.search_by_keyword [exItem] "hello").Sublist [exItem]
    ∧ (exItem ∈ Search.search_by_keyword [exItem] "hello"
        ∧ containsSub (lowerData exItem.question.text) (lowerData "hello") = true) :=
  ⟨⟨rfl, (C10_search_by_keyword [exItem] "").1 rfl⟩,
   (C10_search_by_keyword [exItem] "hello").2.1,
   (C10_search_by_keyword [exItem] "hello").2.2.1,
   by decide,
   (C10_search_by_keyword [exItem] "hello").2.2.2 exItem (by decide)⟩

/-- C9 counterexample: the legacy `cosine_similarity` in src/qa/mod.rs has no
zero-norm guard, so at the pair ([0], [1]) — where the first input has zero
norm — it evaluates its division with divisor 0 (in Rust `f64` this yields
NaN, not the claimed 0.0). -/
theorem C9_counterexample :
    exSqrt ((([0] : List ℚ).map (fun x => x * x)).sum) = 0
    ∧ QaMod.cosine_similarity_divisor exSqrt [0] [1] = 0 := by
  constructor <;> simp [exSqrt, QaMod.cosine_similarity_divisor]

/-- C9 amended: the guarded `cosine_similarity` of src/qa/search.rs returns 0
whenever either norm is zero and never evaluates its division with a zero
divisor; the legacy unguarded version of src/qa/mod.rs always evaluates the
division, with a zero divisor whenever either norm is zero. -/
theorem C9_amended (sqrt : ℚ → ℚ) (a b : List ℚ) :
    (sqrt ((a.map (fun x => x * x)).sum) = 0 ∨ sqrt ((b.map (fun x => x * x)).sum) = 0 →
      Search.cosine_similarity sqrt a b = 0)
    ∧ Search.cosine_similarity_divides_by_zero sqrt a b = false
    ∧ (sqrt ((a.map (fun x => x * x)).sum) = 0 →
      QaMod.cosine_similarity_divisor sqrt a b = 0)
    ∧ (sqrt ((b.map (fun x => x * x)).sum) = 0 →
      QaMod.cosine_similarity_divisor sqrt a b = 0) := by
  refine ⟨?_, ?_, ?_, ?_⟩
  · intro h
    simp only [Search.cosine_similarity]
    exact if_pos h
  · by_cases h : sqrt ((a.map (fun x => x * x)).sum) = 0 ∨ sqrt ((b.map (fun x => x * x)).sum) = 0
    · simp only [Search.cosine_similarity_divides_by_zero]
      exact if_pos h
    · push_neg at h
      simp only [Search.cosine_similarity_divides_by_zero]
      rw [if_neg (by push_neg; exact h)]
      exact decide_eq_false (mul_ne_zero h.1 h.2)
  · intro h
    simp [QaMod.cosine_similarity_divisor, h]
  · intro h
    simp [QaMod.cosine_similarity_divisor, h]

/-- Witness for C9 amended: at the concrete pair ([0], [1]) the guarded
similarity is 0, its division guard fires, and the legacy divisor is 0. -/
theorem C9_amended_witness :
    exSqrt ((([0] : List ℚ).map (fun x => x * x)).sum) = 0
    ∧ Search.cosine_similarity exSqrt [0] [1] = 0
    ∧ Search.cosine_similarity_divides_by_zero exSqrt [0] [1] = false
    ∧ QaMod.cosine_similarity_divisor exSqrt [0] [1] = 0 := by
  have h : exSqrt ((([0] : List ℚ).map (fun x => x * x)).sum) = 0 := by simp [exSqrt]
  exact ⟨h, (C9_amended exSqrt [0] [1]).1 (Or.inl h),
    (C9_amended exSqrt [0] [1]).2.1, (C9_amended exSqrt [0] [1]).2.2.1 h⟩

/-- C8 counterexample: the legacy loader `load_cached_embeddings`
(src/qa/mod.rs) propagates a cache-file PARSE failure as a fatal error
instead of degrading to an empty cache: with both files present, a matching
hash, and an unparseable cache body, it returns an error. -/
theorem C8_counterexample :
    QaMod.load_cached_embeddings ⟨some "corrupt", some "h", true, true⟩
      (fun _ => none) "h" = Except.error () := rfl

/-- C8 amended: the current loader `load_embeddings_cache`
(src/qa/persistence.rs) does treat a missing cache file and an unparseable
cache file as an empty mapping and never fails for those reasons (given
directory creation and file open succeed); the legacy `load_cached_embeddings`
(src/qa/mod.rs) treats missing files as no-cache but returns a fatal error on
an unparseable cache file. -/
theorem C8_amended (fs : Persistence.CacheFs)
    (parse : String → Option (List (String × List ℚ))) :
    (fs.mkdirOk = true → fs.openOk = true →
      (fs.cacheContent = none → Persistence.load_embeddings_cache fs parse = .ok [])
      ∧ (∀ c, fs.cacheContent = some c → parse c = none →
          Persistence.load_embeddings_cache fs parse = .ok [])
      ∧ ∃ m, Persistence.load_embeddings_cache fs parse = .ok m)
    ∧ (∀ (hashContent : Option String)
        (parse2 : String → Option (List (List ℚ))) (exp : String),
        QaMod.load_cached_embeddings ⟨none, hashContent, true, true⟩ parse2 exp = .ok none)
    ∧ (∀ (c h : String) (parse2 : String → Option (List (List ℚ))) (exp : String),
        trimChars h.data = exp.data → parse2 c = none →
        QaMod.load_cached_embeddings ⟨some c, some h, true, true⟩ parse2 exp =
          .error ()) := by
  refine ⟨?_, ?_, ?_⟩
  · intro hmk hop
    refine ⟨?_, ?_, ?_⟩
    · intro hc
      simp [Persistence.load_embeddings_cache, hmk, hop, hc]
    · intro c hc hp
      simp [Persistence.load_embeddings_cache, hmk, hop, hc, hp]
    · rcases hc : fs.cacheContent with _ | c
      · exact ⟨[], by simp [Persistence.load_embeddings_cache, hmk, hop, hc]⟩
      · rcases hp : parse c with _ | m
        · exact ⟨[], by simp [Persistence.load_embeddings_cache, hmk, hop, hc, hp]⟩
        · exact ⟨m, by simp [Persistence.load_embeddings_cache, hmk, hop, hc, hp]⟩
  · intro hashContent parse2 exp
    rfl
  · intro c h parse2 exp htrim hp
    simp [QaMod.load_cached_embeddings, htrim, hp]

/-- Witness for C8 amended: concrete evaluations — missing file and
unparseable file both load as the empty map in the current loader, and the
legacy loader errors on the unparseable file. -/
theorem C8_amended_witness :
    Persistence.load_embeddings_cache ⟨true, none, true⟩ (fun _ => none) = .ok []
    ∧ Persistence.load_embeddings_cache ⟨true, some "corrupt", true⟩ (fun _ => none) = .ok []
    ∧ QaMod.load_cached_embeddings ⟨none, some "h", true, true⟩ (fun _ => none) "h" = .ok none
    ∧ QaMod.load_cached_embeddings ⟨some "corrupt", some "h", true, true⟩
        (fun _ => none) "h" = .error () :=
  ⟨((C8_amended ⟨true, none, true⟩ (fun _ => none)).1 rfl rfl).1 rfl,
   ((C8_amended ⟨true, some "corrupt", true⟩ (fun _ => none)).1 rfl rfl).2.1 "corrupt" rfl rfl,
   (C8_amended ⟨true, none, true⟩ (fun _ => none)).2.1 (some "h") (fun _ => none) "h",
   (C8_amended ⟨true, none, true⟩ (fun _ => none)).2.2 "corrupt" "h" (fun _ => none) "h"
     (by decide) rfl⟩

lemma retryGo_const_fail (env : ℕ → Embedding.IterEnv) (k : String) (msg : String)
    (henv : ∀ i, env i = .key k (.fail msg))
    (hrl : Embedding.is_rate_limit_error msg = false) :
    ∀ fuel attempts, Embedding.retryGo env fuel attempts =
      (List.replicate fuel (.sleepSecs 5), .exhausted) := by
  intro fuel
  induction fuel with
  | zero => intro attempts; rfl
  | succ f ih =>
    intro attempts
    simp only [Embedding.retryGo, henv attempts, hrl]
    simp [ih (attempts + 1), List.replicate_succ]

/-- C3 counterexample: the error text "resource exhausted" is rate-limited
according to the claim's classification (contains "429" or
"resource exhausted"), yet the code classifies it as a transient failure —
the first loop iteration sleeps 5 seconds instead of disabling the
credential and retrying immediately (the code's substring is the longer
"resource has been exhausted"). -/
theorem C3_counterexample :
    Embedding.claimed_rate_limit_class "resource exhausted" = true
    ∧ Embedding.is_rate_limit_error "resource exhausted" = false
    ∧ (Embedding.generate_embedding_with_retry exEnvC3).1.head? =
        some (.sleepSecs 5)
    ∧ (Embedding.generate_embedding_with_retry exEnvC3).1.all
        (fun a => a != .disableKey "k1") = true := by
  refine ⟨by decide, by decide, ?_, ?_⟩ <;>
    rw [Embedding.generate_embedding_with_retry,
      retryGo_const_fail exEnvC3 "k1" "resource exhausted" (fun _ => rfl) (by decide)] <;>
    decide

/-- C3 amended: in `generate_embedding_with_retry`, a provider failure whose
LOWERCASED text contains "429" or "resource has been exhausted" disables the
used credential and retries immediately with no sleep; any other provider
failure sleeps 5 seconds before retrying; a provider success returns at
once; and when every iteration fails the loop stops after the
`MAX_ATTEMPTS = 10` ceiling with a terminal error surfaced to the caller. -/
theorem C3_amended (env : ℕ → Embedding.IterEnv) (fuel attempts : ℕ)
    (k msg : String) (v : List ℚ) :
    (env attempts = .key k (.fail msg) → Embedding.is_rate_limit_error msg = true →
      Embedding.retryGo env (fuel + 1) attempts =
        (.disableKey k :: (Embedding.retryGo env fuel (attempts + 1)).1,
         (Embedding.retryGo env fuel (attempts + 1)).2))
    ∧ (env attempts = .key k (.fail msg) → Embedding.is_rate_limit_error msg = false →
      Embedding.retryGo env (fuel + 1) attempts =
        (.sleepSecs 5 :: (Embedding.retryGo env fuel (attempts + 1)).1,
         (Embedding.retryGo env fuel (attempts + 1)).2))
    ∧ (env attempts = .key k (.ok v) →
      Embedding.retryGo env (fuel + 1) attempts = ([], .success v))
    ∧ ((∀ i, env i = .key k (.fail msg)) → Embedding.is_rate_limit_error msg = false →
      Embedding.generate_embedding_with_retry env =
        (List.replicate Embedding.MAX_ATTEMPTS (.sleepSecs 5), .exhausted)) := by
  refine ⟨?_, ?_, ?_, ?_⟩
  · intro henv hrl
    simp [Embedding.retryGo, henv, hrl]
  · intro henv hrl
    simp [Embedding.retryGo, henv, hrl]
  · intro henv
    simp [Embedding.retryGo, henv]
  · intro henv hrl
    exact retryGo_const_fail env k msg henv hrl Embedding.MAX_ATTEMPTS 0

/-- Witness for C3 amended: a concrete environment that always fails with
the transient error "timeout": the first iteration sleeps 5 seconds, and the
whole loop performs exactly 10 sleeps before surfacing the terminal error. -/
theorem C3_amended_witness :
    exEnvFail 0 = .key "k1" (.fail "timeout")
    ∧ Embedding.is_rate_limit_error "timeout" = false
    ∧ Embedding.retryGo exEnvFail 10 0 =
        (.sleepSecs 5 :: (Embedding.retryGo exEnvFail 9 1).1,
         (Embedding.retryGo exEnvFail 9 1).2)
    ∧ Embedding.generate_embedding_with_retry exEnvFail =
        (List.replicate Embedding.MAX_ATTEMPTS (.sleepSecs 5), .exhausted) :=
  ⟨rfl, by decide,
   (C3_amended exEnvFail 9 0 "k1" "timeout" []).2.1 rfl (by decide),
   (C3_amended exEnvFail 9 0 "k1" "timeout" []).2.2.2 (fun _ => rfl) (by decide)⟩

lemma enumFrom_map_snd (f : List ℚ → ℚ) :
    ∀ (n : ℕ) (qs : List (List ℚ)),
    (List.enumFrom n qs).map (fun p => (p.1, f p.2)) = List.enumFrom n (qs.map f) := by
  intro n qs
  induction qs generalizing n with
  | nil => rfl
  | cons q qs ih => simp [List.enumFrom_cons, ih]

lemma find_best_match_eq (sqrt : ℚ → ℚ) (q : List ℚ) (qs : List (List ℚ)) :
    Search.find_best_match sqrt q qs =
      (qs.map (Search.cosine_similarity sqrt q)).enum.foldl Search.maxStep none := by
  unfold Search.find_best_match
  rw [show qs.enum = List.enumFrom 0 qs from rfl,
    enumFrom_map_snd (Search.cosine_similarity sqrt q) 0 qs]
  rfl

lemma foldl_maxStep_spec :
    ∀ (sims : List ℚ), sims ≠ [] →
    ∃ i s, sims.enum.foldl Search.maxStep none = some (i, s)
      ∧ sims[i]? = some s
      ∧ (∀ (j : ℕ) (x : ℚ), sims[j]? = some x → x ≤ s)
      ∧ (∀ (j : ℕ) (x : ℚ), i < j → sims[j]? = some x → x < s) := by
  intro sims
  induction sims using List.reverseRecOn with
  | nil => intro h; exact absurd rfl h
  | append_singleton l v ih =>
    intro _
    rcases eq_or_ne l [] with rfl | hl
    · refine ⟨0, v, rfl, rfl, ?_, ?_⟩
      · intro j x hx
        rcases j with _ | j
        · simp at hx
          simp [hx]
        · simp at hx
      · intro j x hij hx
        rcases j with _ | j
        · omega
        · simp at hx
    · obtain ⟨i, s, hfold, hget, hub, hlast⟩ := ih hl
      have hE : (l ++ [v]).enum = l.enum ++ [(l.length, v)] := by
        rw [List.enum_append]; rfl
      have hfold' : (l ++ [v]).enum.foldl Search.maxStep none =
          Search.maxStep (some (i, s)) (l.length, v) := by
        rw [hE, List.foldl_append, hfold]
        rfl
      have hi : i < l.length := (List.getElem?_eq_some.mp hget).choose
      by_cases hsv : v < s
      · refine ⟨i, s, ?_, ?_, ?_, ?_⟩
        · rw [hfold']
          simp [Search.maxStep, hsv]
        · rw [List.getElem?_append, if_pos hi]; exact hget
        · intro j x hx
          have hjlen : j < l.length + 1 := by
            have h2 := (List.getElem?_eq_some.mp hx).choose
            simpa using h2
          rcases Nat.lt_succ_iff_lt_or_eq.mp hjlen with hj | rfl
          · rw [List.getElem?_append, if_pos hj] at hx
            exact hub j x hx
          · rw [List.getElem?_concat_length] at hx
            cases hx
            exact le_of_lt hsv
        · intro j x hij hx
          have hjlen : j < l.length + 1 := by
            have h2 := (List.getElem?_eq_some.mp hx).choose
            simpa using h2
          rcases Nat.lt_succ_iff_lt_or_eq.mp hjlen with hj | rfl
          · rw [List.getElem?_append, if_pos hj] at hx
            exact hlast j x hij hx
          · rw [List.getElem?_concat_length] at hx
            cases hx
            exact hsv
      · push_neg at hsv
        refine ⟨l.length, v, ?_, List.getElem?_concat_length l v, ?_, ?_⟩
        · rw [hfold']
          simp only [Search.maxStep]
          rw [if_neg (by simpa using hsv)]
        · intro j x hx
          have hjlen : j < l.length + 1 := by
            have h2 := (List.getElem?_eq_some.mp hx).choose
            simpa using h2
          rcases Nat.lt_succ_iff_lt_or_eq.mp hjlen with hj | rfl
          · rw [List.getElem?_append, if_pos hj] at hx
            exact le_trans (hub j x hx) hsv
          · rw [List.getElem?_concat_length] at hx
            cases hx
            exact le_refl v
        · intro j x hij hx
          have hjlen : j < l.length + 1 := by
            have h2 := (List.getElem?_eq_some.mp hx).choose
            simpa using h2
          omega

lemma find_best_match_spec (sqrt : ℚ → ℚ) (q : List ℚ) (qs : List (List ℚ))
    (h : qs ≠ []) :
    ∃ i s, Search.find_best_match sqrt q qs = some (i, s)
      ∧ (∃ e, qs[i]? = some e ∧ Search.cosine_similarity sqrt q e = s)
      ∧ (∀ (j : ℕ) (e : List ℚ), qs[j]? = some e → Search.cosine_similarity sqrt q e ≤ s)
      ∧ (∀ (j : ℕ) (e : List ℚ), i < j → qs[j]? = some e →
          Search.cosine_similarity sqrt q e < s) := by
  obtain ⟨i, s, hfold, hget, hub, hlast⟩ :=
    foldl_maxStep_spec (qs.map (Search.cosine_similarity sqrt q)) (by simpa using h)
  rw [List.getElem?_map] at hget
  obtain ⟨e, he, hce⟩ := Option.map_eq_some'.mp hget
  refine ⟨i, s, by rw [find_best_match_eq]; exact hfold, ⟨e, he, hce⟩, ?_, ?_⟩
  · intro j e' hj
    exact hub j _ (by rw [List.getElem?_map, hj]; rfl)
  · intro j e' hij hj
    exact hlast j _ hij (by rw [List.getElem?_map, hj]; rfl)

/-- C2: the query path returns `None` on an empty index; on a non-empty
index, `find_best_match` yields an index and the maximum cosine similarity
over all stored vectors, and `find_matching_qa` returns `None` when that
maximum is strictly below the threshold and the entry attaining it when the
maximum is at or above the threshold. -/
theorem C2_query_threshold (sqrt : ℚ → ℚ) (threshold : ℚ) (sys : QASystem)
    (query : List ℚ)
    (hlen : sys.qa_data.length = sys.question_embeddings.length) :
    (sys.question_embeddings = [] →
      QaService.find_matching_qa sqrt threshold sys query = none)
    ∧ (sys.question_embeddings ≠ [] →
      ∃ i s, Search.find_best_match sqrt query sys.question_embeddings = some (i, s)
        ∧ (∃ e, sys.question_embeddings[i]? = some e
            ∧ Search.cosine_similarity sqrt query e = s)
        ∧ (∀ (j : ℕ) (e : List ℚ), sys.question_embeddings[j]? = some e →
            Search.cosine_similarity sqrt query e ≤ s)
        ∧ (s < threshold →
            QaService.find_matching_qa sqrt threshold sys query = none)
        ∧ (threshold ≤ s → ∃ itm, sys.qa_data[i]? = some itm
            ∧ QaService.find_matching_qa sqrt threshold sys query = some itm)) := by
  constructor
  · intro h
    simp [QaService.find_matching_qa, h]
  · intro h
    obtain ⟨i, s, hbm, hatt, hub, _⟩ :=
      find_best_match_spec sqrt query sys.question_embeddings h
    have hne : sys.question_embeddings.isEmpty = false := by
      simpa [List.isEmpty_iff] using h
    refine ⟨i, s, hbm, hatt, hub, ?_, ?_⟩
    · intro hlt
      simp only [QaService.find_matching_qa, hne, Bool.false_eq_true, if_false, hbm]
      rw [if_neg (not_le.mpr hlt)]
    · intro hge
      have hi : i < sys.question_embeddings.length := by
        obtain ⟨e, he, _⟩ := hatt
        exact (List.getElem?_eq_some.mp he).choose
      have hiq : i < sys.qa_data.length := by omega
      refine ⟨sys.qa_data.getD i default, ?_, ?_⟩
      · rw [List.getD_eq_getElem?_getD, List.getElem?_eq_getElem hiq]
        rfl
      · simp only [QaService.find_matching_qa, hne, Bool.false_eq_true, if_false, hbm]
        rw [if_pos hge]

/-- Witness for C2: the one-entry system with stored vector [1], query [1]
and threshold 1/2. -/
theorem C2_query_threshold_witness :
    exSys1.qa_data.length = exSys1.question_embeddings.length
    ∧ exSys1.question_embeddings ≠ []
    ∧ (∃ i s, Search.find_best_match exSqrt [1] exSys1.question_embeddings = some (i, s)
        ∧ (∃ e, exSys1.question_embeddings[i]? = some e
            ∧ Search.cosine_similarity exSqrt [1] e = s)
        ∧ (∀ (j : ℕ) (e : List ℚ), exSys1.question_embeddings[j]? = some e →
            Search.cosine_similarity exSqrt [1] e ≤ s)
        ∧ (s < (1 : ℚ)/2 →
            QaService.find_matching_qa exSqrt ((1 : ℚ)/2) exSys1 [1] = none)
        ∧ ((1 : ℚ)/2 ≤ s → ∃ itm, exSys1.qa_data[i]? = some itm
            ∧ QaService.find_matching_qa exSqrt ((1 : ℚ)/2) exSys1 [1] = some itm)) := by
  have hne : exSys1.question_embeddings ≠ [] := by simp [exSys1]
  exact ⟨rfl, hne, (C2_query_threshold exSqrt ((1 : ℚ)/2) exSys1 [1] rfl).2 hne⟩

/-- C6 counterexample: with query [1] and two stored entries that are BOTH
the vector [1] — hence both attain the equal maximum similarity 1 — Rust's
`Iterator::max_by` keeps the LAST maximal element, so `find_best_match`
returns index 1, not the claimed earliest index 0. -/
theorem C6_counterexample :
    Search.cosine_similarity exSqrt [1] [1] = 1
    ∧ Search.find_best_match exSqrt [1] [[1], [1]] = some (1, 1)
    ∧ (1 : ℕ) ≠ 0 := by
  have h1 : Search.cosine_similarity exSqrt [1] [1] = 1 := by
    simp [Search.cosine_similarity, exSqrt]
  refine ⟨h1, ?_, one_ne_zero⟩
  have hmap : ([[1], [1]] : List (List ℚ)).map (Search.cosine_similarity exSqrt [1])
      = [1, 1] := by
    rw [List.map_cons, List.map_cons, List.map_nil, h1]
  rw [find_best_match_eq, hmap]
  simp [List.enum_cons, List.enumFrom_cons, Search.maxStep, lt_irrefl]

/-- C6 amended: on a non-empty list of stored vectors `find_best_match`
returns the maximum cosine similarity together with the LAST index attaining
it — every strictly later entry has strictly smaller similarity — rather
than the earliest index: `max_by` prefers the later element on ties. -/
theorem C6_amended (sqrt : ℚ → ℚ) (q : List ℚ) (qs : List (List ℚ))
    (h : qs ≠ []) :
    ∃ i s, Search.find_best_match sqrt q qs = some (i, s)
      ∧ (∃ e, qs[i]? = some e ∧ Search.cosine_similarity sqrt q e = s)
      ∧ (∀ (j : ℕ) (e : List ℚ), qs[j]? = some e →
          Search.cosine_similarity sqrt q e ≤ s)
      ∧ (∀ (j : ℕ) (e : List ℚ), i < j → qs[j]? = some e →
          Search.cosine_similarity sqrt q e < s) :=
  find_best_match_spec sqrt q qs h

/-- Witness for C6 amended: the two-entry tie input. -/
theorem C6_amended_witness :
    ([[1], [1]] : List (List ℚ)) ≠ []
    ∧ ∃ i s, Search.find_best_match exSqrt [1] [[1], [1]] = some (i, s)
      ∧ (∃ e, ([[1], [1]] : List (List ℚ))[i]? = some e
          ∧ Search.cosine_similarity exSqrt [1] e = s)
      ∧ (∀ (j : ℕ) (e : List ℚ), ([[1], [1]] : List (List ℚ))[j]? = some e →
          Search.cosine_similarity exSqrt [1] e ≤ s)
      ∧ (∀ (j : ℕ) (e : List ℚ), i < j → ([[1], [1]] : List (List ℚ))[j]? = some e →
          Search.cosine_similarity exSqrt [1] e < s) := by
  have hne : ([[1], [1]] : List (List ℚ)) ≠ [] := by simp
  exact ⟨hne, C6_amended exSqrt [1] [[1], [1]] hne⟩

lemma rrFind_some {p : ℕ → Bool} :
    ∀ {fuel i j : ℕ}, KeyManager.rrFind p fuel i = some j → p j = true := by
  intro fuel
  induction fuel with
  | zero => intro i j h; simp [KeyManager.rrFind] at h
  | succ f ih =>
    intro i j h
    by_cases hp : p i = true
    · simp [KeyManager.rrFind, hp] at h
      exact h ▸ hp
    · simp [KeyManager.rrFind, hp] at h
      exact ih h

lemma refreshKey_disabled_le {now : ℤ} {k : KeyManager.ApiKey}
    (h : (KeyManager.refreshKey now k).disabled_until = none) :
    ∀ d, k.disabled_until = some d → d ≤ now := by
  intro d hd
  by_contra hdn
  simp [KeyManager.refreshKey, hd, if_neg (by omega : ¬ d ≤ now)] at h

/-- C4: `get_key` never returns a credential whose `disabled_until` is still
in the future (any returned credential was last disabled until a time at or
before `now`); a credential disabled until the next UTC midnight is
re-enabled in place by the refresh pass of any later `get_key` call once the
clock reaches that boundary; and in a pool holding that credential it is
then actually acquirable again. -/
theorem C4_disabled_until (rpm rpd : ℕ) (st : KeyManager.ManagerState)
    (now nowLater : ℤ) (s : String) :
    ((KeyManager.get_key rpm rpd st now).2 = some s →
      ∃ (idx : ℕ) (k0 : KeyManager.ApiKey), st.keys[idx]? = some k0 ∧ k0.key = s
        ∧ ∀ d, k0.disabled_until = some d → d ≤ now)
    ∧ (∀ (k : KeyManager.ApiKey), KeyManager.nextUtcMidnight now ≤ nowLater →
      (KeyManager.refreshKey nowLater
        { k with disabled_until := some (KeyManager.nextUtcMidnight now) }).disabled_until
        = none)
    ∧ (∀ (k : KeyManager.ApiKey) (last : ℕ), k.requests = [] → 1 ≤ rpm → 1 ≤ rpd →
      KeyManager.nextUtcMidnight now ≤ nowLater →
      (KeyManager.get_key rpm rpd
        (KeyManager.disable_key ⟨[k], last⟩ k.key now) nowLater).2 = some k.key) := by
  refine ⟨?_, ?_, ?_⟩
  · intro hret
    simp only [KeyManager.get_key] at hret
    by_cases hz : (st.keys.map (KeyManager.refreshKey now)).length = 0
    · simp [hz] at hret
    · rw [if_neg hz] at hret
      rcases hfind : KeyManager.rrFind
          (fun i => KeyManager.isUsable rpm rpd now
            ((st.keys.map (KeyManager.refreshKey now)).getD
              (((st.last_used_key_index + 1) %
                  (st.keys.map (KeyManager.refreshKey now)).length + i) %
                (st.keys.map (KeyManager.refreshKey now)).length) default))
          (st.keys.map (KeyManager.refreshKey now)).length 0 with _ | i
      · rw [hfind] at hret
        simp at hret
      · rw [hfind] at hret
        simp only [Option.some.injEq] at hret
        have hp := rrFind_some hfind
        set n := (st.keys.map (KeyManager.refreshKey now)).length with hn
        set idx := ((st.last_used_key_index + 1) % n + i) % n with hidx
        have hnpos : 0 < n := Nat.pos_of_ne_zero hz
        have hlt : idx < n := Nat.mod_lt _ hnpos
        have hlt' : idx < st.keys.length := by
          rw [hn, List.length_map] at hlt
          exact hlt
        obtain ⟨k0, hk0⟩ : ∃ k0, st.keys[idx]? = some k0 :=
          ⟨st.keys.get ⟨idx, hlt'⟩, List.getElem?_eq_getElem hlt'⟩
        have hmget : (st.keys.map (KeyManager.refreshKey now))[idx]? =
            some (KeyManager.refreshKey now k0) := by
          rw [List.getElem?_map, hk0]
          rfl
        have hgd : (st.keys.map (KeyManager.refreshKey now)).getD idx default =
            KeyManager.refreshKey now k0 := by
          rw [List.getD_eq_getElem?_getD, hmget]
          rfl
        rw [hgd] at hp hret
        have hdis : (KeyManager.refreshKey now k0).disabled_until = none := by
          by_contra hd
          rcases ho : (KeyManager.refreshKey now k0).disabled_until with _ | d
          · exact hd ho
          · simp [KeyManager.isUsable, ho] at hp
        refine ⟨idx, k0, hk0, ?_, refreshKey_disabled_le hdis⟩
        rw [← hret]
        rfl
  · intro k hle
    simp [KeyManager.refreshKey, hle]
  · intro k last hreq hrpm hrpd hle
    have hd : KeyManager.disable_key ⟨[k], last⟩ k.key now =
        ⟨[{ k with disabled_until := some (KeyManager.nextUtcMidnight now) }], last⟩ := by
      simp [KeyManager.disable_key, KeyManager.disableFirst]
    have hrk : KeyManager.refreshKey nowLater
        { k with disabled_until := some (KeyManager.nextUtcMidnight now) } =
        { key := k.key, disabled_until := none, requests := [] } := by
      simp [KeyManager.refreshKey, hle, hreq]
    have husable : KeyManager.isUsable rpm rpd nowLater
        { key := k.key, disabled_until := none, requests := [] } = true := by
      simp [KeyManager.isUsable]
      omega
    rw [hd]
    simp only [KeyManager.get_key, List.map_cons, List.map_nil]
    rw [hrk]
    simp [KeyManager.rrFind, husable, Nat.mod_one]

/-- Witness for C4: a concrete one-credential pool, acquisition at time 0,
disabling at time 0 (until the next UTC midnight 86400) and re-acquisition
exactly at the boundary. -/
theorem C4_disabled_until_witness :
    ((KeyManager.get_key 1 1 ⟨[exKey], 0⟩ 0).2 = some "alpha"
      ∧ ∃ (idx : ℕ) (k0 : KeyManager.ApiKey),
          ([exKey] : List KeyManager.ApiKey)[idx]? = some k0 ∧ k0.key = "alpha"
          ∧ ∀ d, k0.disabled_until = some d → d ≤ 0)
    ∧ (KeyManager.refreshKey 86400
        { exKey with disabled_until := some (KeyManager.nextUtcMidnight 0) }).disabled_until
        = none
    ∧ (KeyManager.get_key 1 1
        (KeyManager.disable_key ⟨[exKey], 0⟩ exKey.key 0) 86400).2 = some exKey.key := by
  have h1 : (KeyManager.get_key 1 1 ⟨[exKey], 0⟩ 0).2 = some "alpha" := by decide
  exact ⟨⟨h1, (C4_disabled_until 1 1 ⟨[exKey], 0⟩ 0 86400 "alpha").1 h1⟩,
    (C4_disabled_until 1 1 ⟨[exKey], 0⟩ 0 86400 "alpha").2.1 exKey (by decide),
    (C4_disabled_until 1 1 ⟨[exKey], 0⟩ 0 86400 "alpha").2.2 exKey 0 rfl
      (by decide) (by decide) (by decide)⟩

lemma markedKeys_length (keys : List KeyManager.ApiKey) (now : ℤ) (last n : ℕ) :
    ∀ j, (KeyManager.markedKeys keys now last n j).length = keys.length := by
  intro j
  induction j with
  | zero => rfl
  | succ j ih => simp [KeyManager.markedKeys, List.length_set, ih]

lemma off_inj (n : ℕ) (a : ℕ) : ∀ t j, t < n → j < n →
    (a + t) % n = (a + j) % n → t = j := by
  intro t j ht hj h
  have hm : t ≡ j [MOD n] := Nat.ModEq.add_left_cancel' a h
  rwa [Nat.ModEq, Nat.mod_eq_of_lt ht, Nat.mod_eq_of_lt hj] at hm

lemma markedKeys_getElem?_of_unmarked (keys : List KeyManager.ApiKey) (now : ℤ)
    (last n : ℕ) :
    ∀ (j i : ℕ), (∀ t, t < j → (last + 1 + t) % n ≠ i) →
    (KeyManager.markedKeys keys now last n j)[i]? = keys[i]? := by
  intro j
  induction j with
  | zero => intro i _; rfl
  | succ j ih =>
    intro i h
    rw [KeyManager.markedKeys, List.getElem?_set_ne (h j (by omega))]
    exact ih i (fun t ht => h t (by omega))

lemma getD_eq_of_getElem? {l : List KeyManager.ApiKey} {i : ℕ}
    {k : KeyManager.ApiKey} (h : l[i]? = some k) : l.getD i default = k := by
  rw [List.getD_eq_getElem?_getD, h]
  rfl

lemma mem_markedKeys (keys : List KeyManager.ApiKey) (now : ℤ) (last n : ℕ)
    (hn : n = keys.length) (hpos : 0 < n)
    (hAll : ∀ k ∈ keys, k.disabled_until = none ∧ k.requests = []) :
    ∀ (j : ℕ), ∀ k' ∈ KeyManager.markedKeys keys now last n j,
      k'.disabled_until = none ∧ (k'.requests = [] ∨ k'.requests = [now]) := by
  intro j
  induction j with
  | zero =>
    intro k' h
    exact ⟨(hAll k' h).1, Or.inl (hAll k' h).2⟩
  | succ j ih =>
    intro k' h
    rcases List.mem_or_eq_of_mem_set h with h1 | rfl
    · exact ih k' h1
    · have hidx : (last + 1 + j) % n < keys.length := hn ▸ Nat.mod_lt _ hpos
      have hg : keys[(last + 1 + j) % n]? = some (keys.getD ((last + 1 + j) % n) default) := by
        rw [List.getElem?_eq_getElem hidx, List.getD_eq_getElem?_getD,
          List.getElem?_eq_getElem hidx]
        rfl
      have hmem : keys.getD ((last + 1 + j) % n) default ∈ keys := by
        rw [getD_eq_of_getElem? (List.getElem?_eq_getElem hidx)]
        exact List.getElem_mem hidx
      exact ⟨(hAll _ hmem).1, Or.inr rfl⟩

lemma refreshKey_id (now : ℤ) (k : KeyManager.ApiKey)
    (h1 : k.disabled_until = none) (h2 : k.requests = [] ∨ k.requests = [now]) :
    KeyManager.refreshKey now k = k := by
  have hlt : now - KeyManager.secondsPerDay < now := by
    simp [KeyManager.secondsPerDay]
  obtain ⟨kk, kd, kr⟩ := k
  simp only at h1 h2
  subst h1
  rcases h2 with h2 | h2 <;> subst h2 <;>
    simp [KeyManager.refreshKey, hlt]

lemma map_refresh_markedKeys (keys : List KeyManager.ApiKey) (now : ℤ) (last n : ℕ)
    (hn : n = keys.length) (hpos : 0 < n)
    (hAll : ∀ k ∈ keys, k.disabled_until = none ∧ k.requests = []) (j : ℕ) :
    (KeyManager.markedKeys keys now last n j).map (KeyManager.refreshKey now) =
      KeyManager.markedKeys keys now last n j := by
  have h : ∀ k' ∈ KeyManager.markedKeys keys now last n j,
      KeyManager.refreshKey now k' = id k' := by
    intro k' hk'
    have := mem_markedKeys keys now last n hn hpos hAll j k' hk'
    exact refreshKey_id now k' this.1 this.2
  rw [List.map_congr_left h, List.map_id]

lemma rrFind_zero_true {p : ℕ → Bool} {fuel : ℕ} (hf : 0 < fuel)
    (hp : p 0 = true) : KeyManager.rrFind p fuel 0 = some 0 := by
  obtain ⟨m, rfl⟩ : ∃ m, fuel = m + 1 := ⟨fuel - 1, by omega⟩
  simp only [KeyManager.rrFind]
  rw [if_pos hp]

lemma get_key_marked (rpm rpd : ℕ) (now : ℤ) (keys : List KeyManager.ApiKey)
    (last : ℕ)
    (hAll : ∀ k ∈ keys, k.disabled_until = none ∧ k.requests = [])
    (hrpm : 1 ≤ rpm) (hrpd : 1 ≤ rpd) (hpos : 0 < keys.length)
    (j last' : ℕ) (hj : j < keys.length)
    (h2 : (last' + 1) % keys.length = (last + 1 + j) % keys.length) :
    KeyManager.get_key rpm rpd
      ⟨KeyManager.markedKeys keys now last keys.length j, last'⟩ now =
      (⟨KeyManager.markedKeys keys now last keys.length (j + 1),
        (last + 1 + j) % keys.length⟩,
       some ((keys.getD ((last + 1 + j) % keys.length) default).key)) := by
  set n := keys.length with hn
  set M := KeyManager.markedKeys keys now last n j with hM
  have hidxn : (last + 1 + j) % n < n := Nat.mod_lt _ (by omega)
  set idx := (last + 1 + j) % n with hidx
  have hunmarked : ∀ t, t < j → (last + 1 + t) % n ≠ idx := by
    intro t ht heq
    rw [hidx] at heq
    have := off_inj n (last + 1) t j (by omega) hj heq
    omega
  have hgetm : M[idx]? = keys[idx]? := by
    rw [hM]
    exact markedKeys_getElem?_of_unmarked keys now last n j idx hunmarked
  have hidxlen : idx < keys.length := by
    rw [← hn]
    exact hidxn
  have hgd0 : keys.getD idx default = keys[idx] := by
    rw [List.getD_eq_getElem?_getD, List.getElem?_eq_getElem hidxlen]
    rfl
  have hkey : keys[idx]? = some (keys.getD idx default) := by
    rw [List.getElem?_eq_getElem hidxlen, hgd0]
  have hgd : M.getD idx default = keys.getD idx default :=
    getD_eq_of_getElem? (hgetm.trans hkey)
  have hmem : keys.getD idx default ∈ keys := by
    rw [hgd0]
    exact List.getElem_mem hidxlen
  have horig := hAll _ hmem
  have hmapr : M.map (KeyManager.refreshKey now) = M := by
    rw [hM]
    exact map_refresh_markedKeys keys now last n hn (by omega) hAll j
  have hlenM : M.length = n := by
    rw [hM, markedKeys_length keys now last n j, ← hn]
  simp only [KeyManager.get_key]
  rw [hmapr, hlenM, if_neg (by omega : ¬ n = 0), h2]
  have hp0 : KeyManager.isUsable rpm rpd now (M.getD ((idx + 0) % n) default) = true := by
    rw [Nat.add_zero, Nat.mod_eq_of_lt hidxn, hgd]
    have hrpd0 : ¬ rpd ≤ 0 := by omega
    have hrpm0 : 0 < rpm := by omega
    simp only [KeyManager.isUsable, horig.1, horig.2, Option.isSome_none,
      Bool.false_eq_true, if_false, List.length_nil, List.filter_nil,
      Nat.le_zero, decide_eq_true_eq]
    rw [if_neg (by omega : ¬ rpd = 0)]
    exact decide_eq_true hrpm0
  rw [rrFind_zero_true (by omega) hp0]
  simp only [Nat.add_zero, Nat.mod_eq_of_lt hidxn]
  rw [hgd, horig.2]
  simp only [List.nil_append, KeyManager.markedKeys]

lemma acquire_run (rpm rpd : ℕ) (now : ℤ) (keys : List KeyManager.ApiKey)
    (last : ℕ)
    (hAll : ∀ k ∈ keys, k.disabled_until = none ∧ k.requests = [])
    (hrpm : 1 ≤ rpm) (hrpd : 1 ≤ rpd) (hpos : 0 < keys.length) :
    ∀ (c j last' : ℕ), j + c = keys.length →
      (last' + 1) % keys.length = (last + 1 + j) % keys.length →
      (KeyManager.acquireSeq rpm rpd now c
        ⟨KeyManager.markedKeys keys now last keys.length j, last'⟩).2 =
        (List.range c).map
          (fun t => some ((keys.getD ((last + 1 + j + t) % keys.length) default).key)) := by
  intro c
  induction c with
  | zero => intro j last' h1 h2; rfl
  | succ c ih =>
    intro j last' h1 h2
    have hj : j < keys.length := by omega
    simp only [KeyManager.acquireSeq]
    rw [get_key_marked rpm rpd now keys last hAll hrpm hrpd hpos j last' hj h2]
    have h2' : ((last + 1 + j) % keys.length + 1) % keys.length =
        (last + 1 + (j + 1)) % keys.length := by
      rw [Nat.mod_add_mod]
      congr 1
    rw [ih (j + 1) ((last + 1 + j) % keys.length) (by omega) h2']
    rw [List.range_succ_eq_map, List.map_cons, List.map_map, Nat.add_zero]
    congr 1
    apply List.map_congr_left
    intro t _
    simp only [Function.comp_apply]
    have harith : last + 1 + (j + 1) + t = last + 1 + j + (t + 1) := by omega
    rw [harith]

lemma map_getD_range (l : List KeyManager.ApiKey) :
    l.map (fun k => some k.key) =
      (List.range l.length).map (fun i => some ((l.getD i default).key)) := by
  induction l with
  | nil => rfl
  | cons x xs ih =>
    rw [List.length_cons, List.range_succ_eq_map, List.map_cons, List.map_cons,
      List.map_map, ih]
    congr 1

/-- C7: with N always-usable credentials (none disabled, empty request
history, positive per-minute and per-day budgets), N consecutive `get_key`
calls return the credentials in round-robin order starting just after the
cursor, and the returned sequence is a permutation of the whole credential
list — each credential is returned exactly once before wrapping. -/
theorem C7_round_robin (rpm rpd : ℕ) (now : ℤ) (keys : List KeyManager.ApiKey)
    (last : ℕ) (hpos : 0 < keys.length)
    (hAll : ∀ k ∈ keys, k.disabled_until = none ∧ k.requests = [])
    (hrpm : 1 ≤ rpm) (hrpd : 1 ≤ rpd) :
    (KeyManager.acquireSeq rpm rpd now keys.length ⟨keys, last⟩).2 =
      (List.range keys.length).map
        (fun t => some ((keys.getD ((last + 1 + t) % keys.length) default).key))
    ∧ (KeyManager.acquireSeq rpm rpd now keys.length ⟨keys, last⟩).2.Perm
        (keys.map (fun k => some k.key)) := by
  have hrun := acquire_run rpm rpd now keys last hAll hrpm hrpd hpos
    keys.length 0 last (by omega) (by rw [Nat.add_zero])
  have h1 : (KeyManager.acquireSeq rpm rpd now keys.length ⟨keys, last⟩).2 =
      (List.range keys.length).map
        (fun t => some ((keys.getD ((last + 1 + t) % keys.length) default).key)) := by
    have h0 := hrun
    simp only [Nat.add_zero] at h0
    exact h0
  refine ⟨h1, ?_⟩
  rw [h1, map_getD_range keys]
  have hcomp : (List.range keys.length).map
      (fun t => some ((keys.getD ((last + 1 + t) % keys.length) default).key)) =
      ((List.range keys.length).map (fun t => (last + 1 + t) % keys.length)).map
        (fun i => some ((keys.getD i default).key)) := by
    rw [List.map_map]
    rfl
  rw [hcomp]
  apply List.Perm.map
  have hnodup : ((List.range keys.length).map
      (fun t => (last + 1 + t) % keys.length)).Nodup := by
    apply List.Nodup.map_on ?_ (List.nodup_range keys.length)
    intro x hx y hy hxy
    exact off_inj keys.length (last + 1) x y
      (List.mem_range.mp hx) (List.mem_range.mp hy) hxy
  apply List.perm_of_nodup_nodup_toFinset_eq hnodup (List.nodup_range keys.length)
  apply Finset.eq_of_subset_of_card_le
  · intro a ha
    rw [List.mem_toFinset] at ha
    obtain ⟨t, _, rfl⟩ := List.mem_map.mp ha
    rw [List.mem_toFinset, List.mem_range]
    exact Nat.mod_lt _ hpos
  · rw [List.toFinset_card_of_nodup hnodup,
      List.toFinset_card_of_nodup (List.nodup_range keys.length),
      List.length_map, List.length_range]

/-- Witness for C7: a concrete two-credential pool; two consecutive calls
return beta then alpha (cursor starts at 0), a permutation of the pool. -/
theorem C7_round_robin_witness :
    0 < ([exKey, exKeyB] : List KeyManager.ApiKey).length
    ∧ (∀ k ∈ ([exKey, exKeyB] : List KeyManager.ApiKey),
        k.disabled_until = none ∧ k.requests = [])
    ∧ (KeyManager.acquireSeq 1 1 0 ([exKey, exKeyB] : List KeyManager.ApiKey).length
        ⟨[exKey, exKeyB], 0⟩).2 =
      (List.range ([exKey, exKeyB] : List KeyManager.ApiKey).length).map
        (fun t => some ((([exKey, exKeyB] : List KeyManager.ApiKey).getD
          ((0 + 1 + t) % ([exKey, exKeyB] : List KeyManager.ApiKey).length)
          default).key))
    ∧ (KeyManager.acquireSeq 1 1 0 ([exKey, exKeyB] : List KeyManager.ApiKey).length
        ⟨[exKey, exKeyB], 0⟩).2.Perm
      (([exKey, exKeyB] : List KeyManager.ApiKey).map (fun k => some k.key)) :=
  ⟨by decide, by decide,
   (C7_round_robin 1 1 0 [exKey, exKeyB] 0 (by decide) (by decide)
     (by decide) (by decide)).1,
   (C7_round_robin 1 1 0 [exKey, exKeyB] 0 (by decide) (by decide)
     (by decide) (by decide)).2⟩
